import Mathlib

/-!
Formal model of the SATutor repository (src/app.py, src/data_download.py)
and of its specified score-report analysis pipeline.

Conventions of the embedding:
* Python machine integers are `Int`/`Nat` (no overflow concerns arise in the
  modelled code paths); Python float arithmetic in the modelled paths is
  exact over `ℚ` wherever the comparisons it feeds are insensitive to the
  rounding (noted at each definition).
* Python regular-expression searches in `parse_score_report` use a fixed,
  closed set of patterns; each is hand-translated into a deterministic
  scanner over `List Char` with the same leftmost-match semantics.
* Randomness (`random.shuffle`) is modelled by universally quantifying over
  an arbitrary permutation-producing function.
* Definitions whose code is not part of the repository's files are marked
  "Modelled from the spec" in their doc comment and follow the spec's words.
-/

namespace SATutor

/-- The four Reading and Writing domains, in declared order
(src/app.py, `DOMAINS_RW`). -/
def DOMAINS_RW : List String :=
  ["Information and Ideas", "Craft and Structure", "Expression of Ideas",
   "Standard English Conventions"]

/-- The four Math domains, in declared order (src/app.py, `DOMAINS_MATH`). -/
def DOMAINS_MATH : List String :=
  ["Algebra", "Advanced Math", "Problem-Solving and Data Analysis",
   "Geometry and Trigonometry"]

/-- All eight domains in declared (declaration-list) order. -/
def allDomains : List String := DOMAINS_RW ++ DOMAINS_MATH

/-- The eight SAT content domains with their section tag and typical question
count, in the insertion order of the `domain_info` dict inside
`parse_score_report` (src/app.py, lines 1000-1011). -/
def domain_info : List (String × String × Nat) :=
  [("Information and Ideas", "rw", 12),
   ("Expression of Ideas", "rw", 8),
   ("Craft and Structure", "rw", 13),
   ("Standard English Conventions", "rw", 11),
   ("Algebra", "math", 13),
   ("Advanced Math", "math", 13),
   ("Problem-Solving and Data Analysis", "math", 5),
   ("Geometry and Trigonometry", "math", 5)]

/-- Iteration order of `domain_info.keys()`. -/
def domainKeys : List String := domain_info.map (fun e => e.1)

/-- A question of the bank (src/app.py, dataclass `Question`). The `extra`
dict of untyped leftover CSV columns is not modelled (no modelled operation
reads it). -/
structure Question where
  id : String
  domain : Option String
  paragraph : Option String
  prompt : String
  choices : List (String × String)
  answer_letter : Option String
  answer_text : Option String
  explanation : Option String
deriving DecidableEq, Repr

/-- Python truthiness of `q.domain and q.domain in domains`
(src/app.py, line 900): a `None` or empty-string domain is falsy. -/
def questionMatches (domains : List String) (q : Question) : Bool :=
  match q.domain with
  | none => false
  | some d => (d != "") && domains.contains d

/-- The candidate pool of `QuestionBank.pick` (src/app.py, lines 900-902):
filter by the requested domains (an empty request keeps everything), and fall
back to the whole bank when the filter is empty. -/
def pickPool (questions : List Question) (domains : List String) : List Question :=
  let pool := questions.filter (fun q => domains.isEmpty || questionMatches domains q)
  if pool.isEmpty then questions else pool

/-- `QuestionBank.pick` (src/app.py, lines 899-904). `random.shuffle` is
modelled by an explicit `shuffle` function, assumed in the theorems to
produce a permutation of its input. -/
def pick (questions : List Question) (domains : List String) (n : Nat)
    (shuffle : List Question → List Question) : List Question :=
  (shuffle (pickPool questions domains)).take n

/-- Grading of a submitted quiz answer (src/app.py, `submit_answer`, line 1329):
`'correct' if (q.answer_letter and answer.upper() == q.answer_letter.upper())
else 'wrong'`. A `None` or empty answer letter is falsy, so it grades wrong. -/
def gradeAnswer (ansLetter : Option String) (answer : String) : String :=
  match ansLetter with
  | none => "wrong"
  | some a =>
    if a = "" then "wrong"
    else if answer.toUpper = a.toUpper then "correct" else "wrong"

end SATutor

namespace SATutor

/-! ### Scanners for the regular expressions of `parse_score_report`

Each Python pattern used by `parse_score_report` (src/app.py, lines 963-1121)
is hand-translated into a scanner over `List Char`. All searches are
case-insensitive (`re.I`); pattern literals below are stored lowercased and
compared against `Char.toLower` of the input. -/

/-- ASCII whitespace, as Python's `\s` matches it on the inputs considered. -/
def isPySpace (c : Char) : Bool :=
  c = ' ' || c = '\t' || c = '\n' || c = '\r' || c = '\x0b' || c = '\x0c'

/-- Case-insensitive literal match at the head of the input; the pattern is
given lowercased. Returns the rest of the input on success. -/
def matchLit : List Char → List Char → Option (List Char)
  | [], s => some s
  | _ :: _, [] => none
  | p :: ps, c :: cs => if p = c.toLower then matchLit ps cs else none

/-- Greedy whitespace skip. Matching a literal that starts with a non-space
character after a greedy bounded-by-literal run needs no backtracking, so a
greedy skip models Python's `\s*` before such a literal exactly. -/
def skipWS : List Char → List Char
  | [] => []
  | c :: cs => if isPySpace c then skipWS cs else c :: cs

/-- Python's greedy `\s+`: at least one whitespace character. -/
def matchWS1 : List Char → Option (List Char)
  | [] => none
  | c :: cs => if isPySpace c then some (skipWS cs) else none

/-- A phrase of literal words separated by `\s*` (no trailing skip). -/
def matchPhrase0 : List (List Char) → List Char → Option (List Char)
  | [], s => some s
  | [w], s => matchLit w s
  | w :: ws, s => (matchLit w s).bind fun r => matchPhrase0 ws (skipWS r)

/-- A phrase of literal words separated by `\s+` (no trailing skip). -/
def matchPhrase1 : List (List Char) → List Char → Option (List Char)
  | [], s => some s
  | [w], s => matchLit w s
  | w :: ws, s => (matchLit w s).bind fun r => (matchWS1 r).bind (matchPhrase1 ws)

/-- Leftmost search (`re.search`): try the matcher at every suffix, left to
right, and keep the first success. -/
def searchO {α : Type} (m : List Char → Option α) : List Char → Option α
  | [] => m []
  | c :: cs =>
    match m (c :: cs) with
    | some r => some r
    | none => searchO m cs

/-- Python's gap `.` repeated at most `n` times, then `m`: `.` does not match
a newline. Existence of a match does not depend on greedy versus lazy order,
and these gaps capture nothing, so the lazy order is used. -/
def matchGap (m : List Char → Option (List Char)) : Nat → List Char → Option (List Char)
  | 0, s => m s
  | n + 1, s =>
    match m s with
    | some r => some r
    | none =>
      match s with
      | [] => none
      | c :: cs => if c = '\n' then none else matchGap m n cs

/-- Maximal digit run at the head: the digits and the rest. -/
def digitRun : List Char → List Char × List Char
  | [] => ([], [])
  | c :: cs =>
    if c.isDigit then
      let p := digitRun cs
      (c :: p.1, p.2)
    else ([], c :: cs)

/-- Value of a digit run. -/
def digitsVal (ds : List Char) : Nat :=
  ds.foldl (fun a c => a * 10 + (c.toNat - 48)) 0

/-- Match a suffix against `\D+(\d{lo,hi})`: a maximal nonempty run of
non-digits, then at least `lo` digits, of which greedily at most `hi` are
captured. Backtracking the greedy `\D+` cannot reach digits earlier, so the
maximal-run reading is exact. -/
def matchNonDigitsThen (lo hi : Nat) (s : List Char) : Option Nat :=
  let nd := s.takeWhile (fun c => !c.isDigit)
  if nd.isEmpty then none
  else
    let ds := (digitRun (s.drop nd.length)).1
    if lo ≤ ds.length then some (digitsVal (ds.take hi)) else none

/-- `pick_int` over a pattern `W1\s*W2\s*...\D+(\d{lo,hi})`
(src/app.py, lines 965-977). -/
def pickIntPhrase (words : List String) (lo hi : Nat) (text : List Char) : Option Int :=
  (searchO (fun s => (matchPhrase0 (words.map (fun w => w.data)) s).bind
    (matchNonDigitsThen lo hi)) text).map Int.ofNat

/-- Match `incorrect\s*answers:\s*(\d+)` at the head. -/
def matchIncAnswers (s : List Char) : Option Nat :=
  (matchPhrase0 ["incorrect".data, "answers:".data] s).bind fun r =>
    let ds := (digitRun (skipWS r)).1
    if ds.isEmpty then none else some (digitsVal ds)

/-- Match `incorrect:\s*(\d+)` at the head. -/
def matchIncColon (s : List Char) : Option Nat :=
  (matchLit "incorrect:".data s).bind fun r =>
    let ds := (digitRun (skipWS r)).1
    if ds.isEmpty then none else some (digitsVal ds)

/-- `pick_int` over a pattern `PHRASE\s*[\s\S]*?INNER`: the leftmost phrase
occurrence followed anywhere later by `inner`; the lazy unbounded gap takes
the first `inner` match after it (src/app.py, lines 980-986). -/
def pickIntAfter (words : List String) (inner : List Char → Option Nat)
    (text : List Char) : Option Int :=
  (searchO (fun s => (matchPhrase0 (words.map (fun w => w.data)) s).bind
    (fun r => searchO inner (skipWS r))) text).map Int.ofNat

/-- Python truthiness of an optional int: `None` and `0` are falsy. -/
def pyTruthy : Option Int → Bool
  | none => false
  | some v => v != 0

/-- Python `a or b` on optional ints (used for the two Reading and Writing
score patterns, src/app.py line 976). -/
def pyOr (a b : Option Int) : Option Int := if pyTruthy a then a else b

/-- Python `(a or d)` collapsing to an int default. -/
def pyOrD (a : Option Int) (d : Int) : Int :=
  match a with
  | some v => if v = 0 then d else v
  | none => d

/-- `TOTAL\s*SCORE\D+(\d{3,4})` (src/app.py, line 975). -/
def scanTotal (t : List Char) : Option Int := pickIntPhrase ["total", "score"] 3 4 t

/-- `Reading\s*and\s*Writing\D+(\d{3})` or-else (by Python truthiness)
`Reading\s*&\s*Writing\D+(\d{3})` (src/app.py, line 976). -/
def scanRW (t : List Char) : Option Int :=
  pyOr (pickIntPhrase ["reading", "and", "writing"] 3 3 t)
       (pickIntPhrase ["reading", "&", "writing"] 3 3 t)

/-- `Math\D+(\d{3})` (src/app.py, line 977). -/
def scanMath (t : List Char) : Option Int := pickIntPhrase ["math"] 3 3 t

/-- `rw_incorrect` extraction with its `is None` fallback pattern
(src/app.py, lines 980-984). -/
def scanRWIncorrect (t : List Char) : Option Int :=
  (pickIntAfter ["reading", "and", "writing"] matchIncAnswers t).orElse
    (fun _ => pickIntAfter ["reading", "and", "writing"] matchIncColon t)

/-- `math_incorrect` extraction with its `is None` fallback pattern
(src/app.py, lines 981-986). -/
def scanMathIncorrect (t : List Char) : Option Int :=
  (pickIntAfter ["math"] matchIncAnswers t).orElse
    (fun _ => pickIntAfter ["math"] matchIncColon t)

/-- Python `int(round(a / 6))`: round half to even. The float quotient is
within an ulp of the exact rational and ties are exactly representable, so
the exact-rational rounding below agrees with the float computation. -/
def round6 (a : Int) : Int :=
  let q := Int.ediv a 6
  let r := Int.emod a 6
  if r < 3 then q
  else if 3 < r then q + 1
  else if Int.emod q 2 = 0 then q else q + 1

/-- `int(round(((s or 0) - 200) / 6)) if s else 0` (src/app.py, lines 988-989). -/
def pctOf (o : Option Int) : Int :=
  match o with
  | some v => if v = 0 then 0 else round6 (v - 200)
  | none => 0

/-- Python `int(((v - 200) * total) / 600)`: truncation toward zero of the
exact rational (the float quotient never strays across an integer, since the
exact value is a rational with denominator 100). -/
def errEstimate (v total : Int) : Int := Int.tdiv ((v - 200) * total) 600

/-- `rw_err` (src/app.py, line 993). -/
def rwErr (rwInc rw : Option Int) : Int :=
  match rwInc with
  | some v => v
  | none => 54 - errEstimate (pyOrD rw 500) 54

/-- `math_err` (src/app.py, line 994). -/
def mathErr (mathInc math : Option Int) : Int :=
  match mathInc with
  | some v => v
  | none => 44 - errEstimate (pyOrD math 500) 44

/-- `need\s+to\s+focus\s+on`. -/
def indicatorNeed : List Char → Option (List Char) :=
  matchPhrase1 ["need".data, "to".data, "focus".data, "on".data]

/-- `areas?\s+for\s+improvement`: the optional `s` is consumed when present
(backtracking past it cannot help, since `\s+` rejects the letter `s`). -/
def indicatorAreas (s : List Char) : Option (List Char) :=
  (matchLit "area".data s).bind fun r =>
    let r2 := match r with
      | c :: cs => if c.toLower = 's' then cs else c :: cs
      | [] => []
    (matchWS1 r2).bind (matchPhrase1 ["for".data, "improvement".data])

/-- `consider\s+reviewing`. -/
def indicatorConsider : List Char → Option (List Char) :=
  matchPhrase1 ["consider".data, "reviewing".data]

/-- `practice\s+more`. -/
def indicatorPractice : List Char → Option (List Char) :=
  matchPhrase1 ["practice".data, "more".data]

/-- `strengthen\s+your`. -/
def indicatorStrengthen : List Char → Option (List Char) :=
  matchPhrase1 ["strengthen".data, "your".data]

/-- The five weakness indicators (src/app.py, lines 1017-1023). -/
def weaknessIndicators : List (List Char → Option (List Char)) :=
  [indicatorNeed, indicatorAreas, indicatorConsider, indicatorPractice,
   indicatorStrengthen]

/-- The lowercased characters of a literal (for `re.escape(domain)` under
`re.I`). -/
def lcData (s : String) : List Char := s.data.map Char.toLower

/-- One Method-1 probe: does `(INDICATOR.?-gap DOMAIN | DOMAIN .?-gap INDICATOR)`
match anywhere, with a gap of at most 50 non-newline characters
(src/app.py, lines 1025-1031)? -/
def method1Hit (ind : List Char → Option (List Char)) (dom : String)
    (t : List Char) : Bool :=
  (searchO (fun s => (ind s).bind (fun r => matchGap (matchLit (lcData dom)) 50 r)) t).isSome
  || (searchO (fun s => (matchLit (lcData dom) s).bind (fun r => matchGap ind 50 r)) t).isSome

/-- Method 1: domains named near a weakness indicator, in `domain_info` key
order (src/app.py, lines 1025-1031). -/
def method1 (t : List Char) : List String :=
  domainKeys.filter (fun d => weaknessIndicators.any (fun ind => method1Hit ind d t))

/-- Consume `[^)]*\)` (a negated class cannot cross the closing parenthesis,
so the greedy run ends at the first one). -/
def consumeParen : List Char → Option (List Char)
  | [] => none
  | c :: cs => if c = ')' then some cs else consumeParen cs

/-- Match `DOMAIN\s*\([^)]*\)` at the head, returning the text after the
match end (`match.end()`, src/app.py lines 1046-1052). -/
def matchDomParen (dom : String) (s : List Char) : Option (List Char) :=
  (matchLit (lcData dom) s).bind fun r =>
    match skipWS r with
    | '(' :: rest => consumeParen rest
    | _ => none

/-- Length of the whitespace run at the head. -/
def wsRun (s : List Char) : Nat := (s.takeWhile isPySpace).length

/-- Length of the tab run at the head. -/
def tabRun (s : List Char) : Nat := (s.takeWhile (fun c => c = '\t')).length

/-- One step of `re.findall` over the alternation `\s{3,}|\t+|□|○|◯`:
non-overlapping leftmost scan, first alternative first, greedy runs
(src/app.py, line 1056). -/
def countEmptyAux : Nat → List Char → Nat
  | 0, _ => 0
  | _, [] => 0
  | fuel + 1, c :: cs =>
    let w := wsRun (c :: cs)
    if 3 ≤ w then 1 + countEmptyAux fuel ((c :: cs).drop w)
    else if c = '\t' then 1 + countEmptyAux fuel ((c :: cs).drop (tabRun (c :: cs)))
    else if c = '□' || c = '○' || c = '◯' then 1 + countEmptyAux fuel cs
    else countEmptyAux fuel cs

/-- Count of empty-box indicator matches in a section. -/
def countEmpty (s : List Char) : Nat := countEmptyAux s.length s

/-- Count of filled-box indicator characters `■|●|◆|▪` (src/app.py, line 1057;
the count is computed by the Python code but never read afterwards). -/
def countFilled (s : List Char) : Nat :=
  s.countP (fun c => c = '■' || c = '●' || c = '◆' || c = '▪')

/-- Method-2 score `max(0.1, 1.0 - empty * 0.3)` when any empty indicator is
seen, else the initial `1.0` (src/app.py, lines 1043-1061). Python float
arithmetic is modelled exactly over `ℚ`; the float and rational values order
the same way against the later `< 0.8` test for all small counts. -/
def domainScore (sec : List Char) : ℚ :=
  let e := countEmpty sec
  if 0 < e then max ((1 : ℚ)/10) (1 - (e : ℚ) * (3/10)) else 1

/-- `domain_performance`: for each domain whose `DOMAIN\s*\(...\)` pattern
matches, the score of the 300 characters after the match, in `domain_info`
key order (dict insertion order; src/app.py, lines 1040-1063). -/
def domainPerformance (t : List Char) : List (String × ℚ) :=
  domainKeys.filterMap (fun d =>
    (searchO (matchDomParen d) t).map (fun rest => (d, domainScore (rest.take 300))))

/-- Stable ascending order on performance entries (Python `sorted` by score). -/
def scoreLE (a b : String × ℚ) : Prop := a.2 ≤ b.2

instance : DecidableRel scoreLE := fun a b => inferInstanceAs (Decidable (a.2 ≤ b.2))

/-- Method 2: the two lowest-scoring domains, kept only when below `0.8`
(slice first, then filter — src/app.py, lines 1065-1070). -/
def method2 (t : List Char) : List String :=
  let perf := domainPerformance t
  if perf.isEmpty then []
  else ((List.insertionSort scoreLE perf).take 2).filterMap
    (fun p => if p.2 < 4/5 then some p.1 else none)

/-- The "smart fallback" of Method 2 (src/app.py, lines 1072-1095). -/
def smartFallback (rwE mathE : Int) : List String :=
  if 0 < rwE ∧ 0 < mathE then
    if |rwE - mathE| ≤ 1 then ["Expression of Ideas", "Geometry and Trigonometry"]
    else if mathE < rwE then ["Expression of Ideas", "Standard English Conventions"]
    else ["Geometry and Trigonometry", "Problem-Solving and Data Analysis"]
  else if 0 < rwE then ["Expression of Ideas", "Standard English Conventions"]
  else if 0 < mathE then ["Geometry and Trigonometry", "Problem-Solving and Data Analysis"]
  else []

/-- Section tag of a domain in `domain_info`. -/
def sectionOf (d : String) : String :=
  ((domain_info.find? (fun e => e.1 = d)).map (fun e => e.2.1)).getD ""

/-- Method 3: domains mentioned anywhere in the text, prioritized by the
weaker section (src/app.py, lines 1098-1111). -/
def method3 (t : List Char) (rwE mathE : Int) : List String :=
  let found := domainKeys.filter (fun d => (searchO (matchLit (lcData d)) t).isSome)
  if found.isEmpty then []
  else if mathE ≤ rwE then
    let rwd := found.filter (fun d => sectionOf d = "rw")
    if rwd.isEmpty then found.take 2 else rwd.take 2
  else
    let md := found.filter (fun d => sectionOf d = "math")
    if md.isEmpty then found.take 2 else md.take 2

/-- The unconditional final fallback (src/app.py, lines 1114-1118). -/
def finalFallback (rwE mathE : Int) : List String :=
  if mathE ≤ rwE then ["Craft and Structure", "Standard English Conventions"]
  else ["Advanced Math", "Algebra"]

/-- The `domain_weaknesses` cascade of `parse_score_report`
(src/app.py, lines 1014-1118). -/
def domainWeaknesses (t : List Char) (rwE mathE : Int) : List String :=
  let m1 := method1 t
  if !m1.isEmpty then m1
  else
    let m2a := method2 t
    let m2 := if !m2a.isEmpty then m2a else smartFallback rwE mathE
    if !m2.isEmpty then m2
    else
      let m3 := method3 t rwE mathE
      if !m3.isEmpty then m3 else finalFallback rwE mathE

/-- The result of `parse_score_report` (src/app.py, dataclass `Diagnosis`). -/
structure Diagnosis where
  total_score : Option Int
  rw_score : Option Int
  math_score : Option Int
  rw_incorrect : Option Int
  math_incorrect : Option Int
  rw_pct : Int
  math_pct : Int
  focus_domains : List String
deriving DecidableEq, Repr

/-- `parse_score_report` (src/app.py, lines 963-1132). -/
def parse_score_report (text : String) : Diagnosis :=
  let t := text.data
  let total := scanTotal t
  let rw := scanRW t
  let math := scanMath t
  let rwInc := scanRWIncorrect t
  let mathInc := scanMathIncorrect t
  let rwE := rwErr rwInc rw
  let mathE := mathErr mathInc math
  { total_score := total
    rw_score := rw
    math_score := math
    rw_incorrect := rwInc
    math_incorrect := mathInc
    rw_pct := pctOf rw
    math_pct := pctOf math
    focus_domains := (domainWeaknesses t rwE mathE).take 2 }

end SATutor

namespace SATutor

/-! ### The score-report image-analysis pipeline

The seven-stage pipeline (Rasterizer, Region Extractor, Box Detector, Row
Grouper, Label Matcher, Fill Classifier, Domain Aggregator) is part of the
specification of this repository but its code is not among the repository's
files; every definition in this section is modelled from the spec (sections
2-4 and 7). -/

/-- Modelled from the spec: a pixel buffer with width and height (RasterPage
and every region derived from one); `pix y x` is the grayscale intensity
(0..255) at row `y`, column `x`. -/
structure Img where
  width : Nat
  height : Nat
  pix : Nat → Nat → Nat

/-- Modelled from the spec: the threshold mode, a closed two-variant choice
(`fixed` with an intensity cutoff, or `automatic`). -/
inductive ThresholdMode where
  | fixed (t : Int)
  | automatic
deriving DecidableEq, Repr

/-- Modelled from the spec: the Parameters — threshold mode, morphological
kernel size, erosion iteration count and four fractional crop bounds. -/
structure Params where
  mode : ThresholdMode
  kernel : Nat
  erodeIter : Nat
  cx1 : ℚ
  cx2 : ℚ
  cy1 : ℚ
  cy2 : ℚ
deriving DecidableEq, Repr

/-- Modelled from the spec: a raw (possibly partial) configuration file; a
missing file or field falls back to the documented default. -/
structure RawConfig where
  mode : Option String
  thresholdValue : Option Int
  kernel : Option Nat
  erodeIter : Option Nat
  cx1 : Option ℚ
  cx2 : Option ℚ
  cy1 : Option ℚ
  cy2 : Option ℚ

/-- Modelled from the spec: the documented defaults. The spec leaves the
numeric values open; representative constants are fixed here. -/
def defaultParams : Params :=
  { mode := .fixed 180, kernel := 3, erodeIter := 1,
    cx1 := 5/100, cx2 := 95/100, cy1 := 55/100, cy2 := 95/100 }

/-- Modelled from the spec: load Parameters from an optional configuration
(absent or malformed file = `none`), each absent field falling back silently
to its default; an unrecognized mode string also falls back. -/
def loadParams : Option RawConfig → Params
  | none => defaultParams
  | some c =>
    { mode :=
        match c.mode with
        | some "fixed" => .fixed (c.thresholdValue.getD 180)
        | some "automatic" => .automatic
        | _ => defaultParams.mode
      kernel := c.kernel.getD defaultParams.kernel
      erodeIter := c.erodeIter.getD defaultParams.erodeIter
      cx1 := c.cx1.getD defaultParams.cx1
      cx2 := c.cx2.getD defaultParams.cx2
      cy1 := c.cy1.getD defaultParams.cy1
      cy2 := c.cy2.getD defaultParams.cy2 }

/-- Modelled from the spec: a fractional bound scaled to a dimension and
clamped to `[0, dim]`. -/
def fracCoord (q : ℚ) (dim : Nat) : Nat := (max 0 (min (⌊q * dim⌋) (dim : Int))).toNat

/-- Modelled from the spec (Region Extractor): crop to the sub-rectangle of
the four fractional bounds, clamping each bound and normalizing inverted
pairs; a zero-area rectangle becomes a 1-by-1 placeholder instead of
failing. -/
def cropRegion (img : Img) (p : Params) : Img :=
  let a1 := fracCoord p.cx1 img.width
  let a2 := fracCoord p.cx2 img.width
  let b1 := fracCoord p.cy1 img.height
  let b2 := fracCoord p.cy2 img.height
  let x1 := min a1 a2
  let x2 := max a1 a2
  let y1 := min b1 b2
  let y2 := max b1 b2
  if x2 - x1 = 0 ∨ y2 - y1 = 0 then { width := 1, height := 1, pix := fun _ _ => 255 }
  else { width := x2 - x1, height := y2 - y1, pix := fun y x => img.pix (y1 + y) (x1 + x) }

/-- Modelled from the spec: the left half (Reading and Writing domain group)
of the cropped region, split at the horizontal midpoint. -/
def leftHalf (img : Img) : Img :=
  { width := img.width / 2, height := img.height, pix := img.pix }

/-- Modelled from the spec: the right half (Math domain group). -/
def rightHalf (img : Img) : Img :=
  { width := img.width - img.width / 2, height := img.height,
    pix := fun y x => img.pix y (img.width / 2 + x) }

/-- Modelled from the spec: the canonical width (900 px). -/
def CANONICAL_W : Nat := 900

/-- Modelled from the spec: scale a region to a canonical width preserving
aspect. The spec fixes no interpolation; nearest-neighbour sampling is
used. A zero-width region stays the degenerate empty region. -/
def resizeToWidth (cw : Nat) (img : Img) : Img :=
  if img.width = 0 then { width := 0, height := 0, pix := img.pix }
  else
    let nh := img.height * cw / img.width
    { width := cw, height := nh,
      pix := fun y x => img.pix (y * img.height / max nh 1) (x * img.width / cw) }

/-- Modelled from the spec: a fixed threshold value clamped to `[0, 255]`. -/
def clampThresh (t : Int) : Nat := (max 0 (min t 255)).toNat

/-- Sum of all pixels of a region. -/
def pixSum (img : Img) : Nat :=
  ((List.range img.height).map (fun y =>
    ((List.range img.width).map (fun x => img.pix y x)).sum)).sum

/-- Modelled from the spec: the automatic global threshold. The spec names no
algorithm; the global mean intensity is used. -/
def autoThreshold (img : Img) : Nat := pixSum img / (img.width * img.height)

/-- The effective threshold of the configured mode. -/
def thresholdOf (p : Params) (img : Img) : Nat :=
  match p.mode with
  | .fixed t => clampThresh t
  | .automatic => autoThreshold img

/-- Modelled from the spec: the inverse-binary threshold mask — a pixel is a
candidate mark pixel iff it lies inside the image and its intensity does not
exceed the threshold (dark ink on a light background). -/
def maskOf (img : Img) (t : Nat) : Nat → Nat → Bool :=
  fun y x => decide (y < img.height) && decide (x < img.width) && decide (img.pix y x ≤ t)

/-- The square structuring element's window of side `k` anchored at its
centre, in saturating `Nat` coordinates (border cells repeat, mirroring
border replication). -/
def window (k y x : Nat) : List (Nat × Nat) :=
  (List.range k).flatMap (fun dy => (List.range k).map (fun dx =>
    (y + dy - k / 2, x + dx - k / 2)))

/-- Modelled from the spec: morphological erosion with a square structuring
element of side `k`; the result is false outside the image. -/
def erode (w h k : Nat) (m : Nat → Nat → Bool) : Nat → Nat → Bool :=
  fun y x => decide (y < h) && decide (x < w) &&
    (window k y x).all (fun c => m c.1 c.2 || !(decide (c.1 < h) && decide (c.2 < w)))

/-- Modelled from the spec: morphological dilation with a square structuring
element of side `k`; the result is false outside the image. -/
def dilate (w h k : Nat) (m : Nat → Nat → Bool) : Nat → Nat → Bool :=
  fun y x => decide (y < h) && decide (x < w) &&
    (window k y x).any (fun c => m c.1 c.2)

/-- Modelled from the spec: one morphological opening (erosion then dilation). -/
def opening (w h k : Nat) (m : Nat → Nat → Bool) : Nat → Nat → Bool :=
  dilate w h k (erode w h k m)

/-- Modelled from the spec: opening, then erosion repeated the configured
iteration count. -/
def morphed (w h : Nat) (p : Params) (m : Nat → Nat → Bool) : Nat → Nat → Bool :=
  (erode w h p.kernel)^[p.erodeIter] (opening w h p.kernel m)

/-- All cells of a w-by-h grid in row-major order. -/
def cellsOf (w h : Nat) : List (Nat × Nat) :=
  (List.range h).flatMap (fun y => (List.range w).map (fun x => (y, x)))

/-- The mask's true cells, in row-major order. -/
def trueCells (w h : Nat) (m : Nat → Nat → Bool) : List (Nat × Nat) :=
  (cellsOf w h).filter (fun c => m c.1 c.2)

/-- The eight neighbours of a cell in saturating `Nat` coordinates (cells on
the border repeat; the mask is false out of bounds, and revisits are screened
by the visited list). -/
def nbrs (c : Nat × Nat) : List (Nat × Nat) :=
  [(c.1 + 1, c.2), (c.1 - 1, c.2), (c.1, c.2 + 1), (c.1, c.2 - 1),
   (c.1 + 1, c.2 + 1), (c.1 + 1, c.2 - 1), (c.1 - 1, c.2 + 1), (c.1 - 1, c.2 - 1)]

/-- Fuel-bounded breadth-first flood fill collecting one 8-connected
component of the mask. -/
def flood (m : Nat → Nat → Bool) : Nat → List (Nat × Nat) → List (Nat × Nat) → List (Nat × Nat)
  | 0, _, visited => visited
  | _ + 1, [], visited => visited
  | fuel + 1, c :: queue, visited =>
    if visited.contains c then flood m fuel queue visited
    else flood m fuel (queue ++ (nbrs c).filter (fun q => m q.1 q.2)) (visited ++ [c])

/-- Components, seeded from the true cells in row-major order. -/
def componentsAux (m : Nat → Nat → Bool) (fuel : Nat) :
    List (Nat × Nat) → List (Nat × Nat) → List (List (Nat × Nat))
  | [], _ => []
  | c :: rest, seen =>
    if seen.contains c then componentsAux m fuel rest seen
    else
      let comp := flood m fuel [c] []
      comp :: componentsAux m fuel rest (seen ++ comp)

/-- Modelled from the spec: the connected components of the processed mask
(external contours of the detector). -/
def components (w h : Nat) (m : Nat → Nat → Bool) : List (List (Nat × Nat)) :=
  componentsAux m (w * h * 9 + 9) (trueCells w h m) []

/-- A detected axis-aligned rectangle in canonical-scale coordinates
(the spec's Box). -/
structure Box where
  x : Nat
  y : Nat
  w : Nat
  h : Nat
deriving DecidableEq, Repr

/-- Bounding rectangle of a component. -/
def boundingBox : List (Nat × Nat) → Box
  | [] => { x := 0, y := 0, w := 0, h := 0 }
  | c :: cs =>
    let y0 := ((c :: cs).map (fun q => q.1)).foldl min c.1
    let y1 := ((c :: cs).map (fun q => q.1)).foldl max c.1
    let x0 := ((c :: cs).map (fun q => q.2)).foldl min c.2
    let x1 := ((c :: cs).map (fun q => q.2)).foldl max c.2
    { x := x0, y := y0, w := x1 - x0 + 1, h := y1 - y0 + 1 }

/-- Modelled from the spec: the geometric candidate filter — area within
`[30, 7000]`, aspect within `[0.3, 7.0]`, height at most `0.18` of the
canonical image height. -/
def geomOK (canonH : Nat) (b : Box) : Bool :=
  decide (30 ≤ b.w * b.h) && decide (b.w * b.h ≤ 7000) &&
  decide ((3 : ℚ)/10 ≤ (b.w : ℚ)/(b.h : ℚ)) && decide ((b.w : ℚ)/(b.h : ℚ) ≤ 7) &&
  decide ((b.h : ℚ) ≤ 18/100 * (canonH : ℚ))

/-- Detector output order: ascending `(y, x)` — top to bottom, then left to
right. -/
def boxYXLE (a b : Box) : Prop := a.y < b.y ∨ (a.y = b.y ∧ a.x ≤ b.x)

instance : DecidableRel boxYXLE := fun a b =>
  inferInstanceAs (Decidable (a.y < b.y ∨ (a.y = b.y ∧ a.x ≤ b.x)))

/-- Modelled from the spec (Box Detector): scale the half-region to the
canonical width, threshold to an inverse-binary mask, apply one opening and
the configured erosions, extract components, keep the bounding rectangles
passing the geometric filter, and sort by `(y, x)` ascending. -/
def detectBoxes (img : Img) (p : Params) : List Box :=
  let canon := resizeToWidth CANONICAL_W img
  let t := thresholdOf p canon
  let m := morphed canon.width canon.height p (maskOf canon t)
  List.insertionSort boxYXLE
    (((components canon.width canon.height m).map boundingBox).filter (geomOK canon.height))

/-- Vertical centre of a box. -/
def centerY (b : Box) : ℚ := (b.y : ℚ) + (b.h : ℚ)/2

/-- Running centre of a row: mean vertical centre of its members. -/
def rowCenter (r : List Box) : ℚ := ((r.map centerY).sum) / (r.length : ℚ)

/-- Modelled from the spec (Row Grouper): place a box into the first existing
row whose running centre is within the 14 px tolerance, else start a new
row. -/
def addToRows (rows : List (List Box)) (b : Box) : List (List Box) :=
  match rows with
  | [] => [[b]]
  | r :: rs =>
    if |rowCenter r - centerY b| ≤ 14 then (r ++ [b]) :: rs else r :: addToRows rs b

/-- Left-to-right order inside a row. -/
def boxXLE (a b : Box) : Prop := a.x ≤ b.x

instance : DecidableRel boxXLE := fun a b => inferInstanceAs (Decidable (a.x ≤ b.x))

/-- Ascending-centre order on rows. -/
def rowCLE (r s : List Box) : Prop := rowCenter r ≤ rowCenter s

instance : DecidableRel rowCLE := fun r s =>
  inferInstanceAs (Decidable (rowCenter r ≤ rowCenter s))

/-- Modelled from the spec (Row Grouper): greedy single-pass clustering of the
boxes in detector order, then each row sorted by `x` ascending and the rows
sorted by ascending centre. -/
def groupRows (boxes : List Box) : List (List Box) :=
  List.insertionSort rowCLE
    ((boxes.foldl addToRows []).map (List.insertionSort boxXLE))

/-- Modelled from the spec: a recognized token — text, confidence, bounding
box. -/
structure OCRToken where
  text : String
  conf : ℚ
  x : Nat
  y : Nat
  w : Nat
  h : Nat
deriving DecidableEq

/-- Tokens with empty text are discarded. -/
def keepTokens (toks : List OCRToken) : List OCRToken :=
  toks.filter (fun t => t.text != "")

/-- Charwise lowercasing of a token text. -/
def lowerStr (s : String) : String := String.mk (s.data.map Char.toLower)

/-- The words of a domain label phrase, lowercased. -/
def phraseWords (d : String) : List String := (lowerStr d).splitOn " "

/-- A contiguous run of tokens at the head whose lowercased texts are exactly
the phrase's words in order. -/
def runMatch (ws : List String) (toks : List OCRToken) : Option (List OCRToken) :=
  if ws.isEmpty then none
  else
    let run := toks.take ws.length
    if decide (run.length = ws.length) &&
        (run.zip ws).all (fun p => lowerStr p.1.text == p.2) then some run
    else none

/-- All matching runs, by start position left to right. -/
def allRuns (ws : List String) : List OCRToken → List (List OCRToken)
  | [] => []
  | t :: ts =>
    (match runMatch ws (t :: ts) with
     | some r => [r]
     | none => []) ++ allRuns ws ts

/-- Mean confidence of a run. -/
def meanConf (run : List OCRToken) : ℚ := ((run.map (fun t => t.conf)).sum) / (run.length : ℚ)

/-- The run of highest mean confidence (the first one on ties). -/
def bestRun (rs : List (List OCRToken)) : Option (List OCRToken) :=
  rs.foldl (fun best r =>
    match best with
    | none => some r
    | some b => if meanConf b < meanConf r then some r else best) none

/-- Modelled from the spec (Label Matcher): the vertical position of a
domain's label — the first token's top coordinate of the best matching run,
if any. -/
def labelPos (d : String) (toks : List OCRToken) : Option ℚ :=
  (bestRun (allRuns (phraseWords d) (keepTokens toks))).map (fun run =>
    match run with
    | [] => 0
    | t :: _ => (t.y : ℚ))

/-- The unclaimed row index whose centre is closest to the label position
(first minimum on ties). -/
def nearestIdx (pos : ℚ) (rows : List (List Box)) (claimed : List Nat) : Option Nat :=
  ((List.range rows.length).filter (fun i => !claimed.contains i)).foldl
    (fun best i =>
      match best with
      | none => some i
      | some j =>
        if |rowCenter (rows.getD i []) - pos| < |rowCenter (rows.getD j []) - pos| then some i
        else best)
    none

/-- Modelled from the spec (Label Matcher, first pass): each domain with a
label position claims the nearest unclaimed row, in declared domain order;
domains without a label stay unassigned. Returns the assignments and the
claimed indices. -/
def claimPass (domains : List String) (toks : List OCRToken) (rows : List (List Box)) :
    List (String × Option Nat) × List Nat :=
  domains.foldl (fun acc d =>
    match labelPos d toks with
    | none => (acc.1 ++ [(d, none)], acc.2)
    | some pos =>
      match nearestIdx pos rows acc.2 with
      | none => (acc.1 ++ [(d, none)], acc.2)
      | some i => (acc.1 ++ [(d, some i)], acc.2 ++ [i])) ([], [])

/-- Modelled from the spec (Label Matcher, fallback pass): the domains left
unassigned take the remaining unclaimed rows one-to-one, in declared order;
surplus domains stay unassigned, surplus rows stay unused. -/
def fallbackFill : List (String × Option Nat) → List Nat → List (String × Option Nat)
  | [], _ => []
  | (d, some i) :: rest, un => (d, some i) :: fallbackFill rest un
  | (d, none) :: rest, [] => (d, none) :: fallbackFill rest []
  | (d, none) :: rest, u :: us => (d, some u) :: fallbackFill rest us

/-- Modelled from the spec (Label Matcher): the one-to-one (or one-to-none)
assignment from the given domains to rows. -/
def assignDomains (domains : List String) (toks : List OCRToken)
    (rows : List (List Box)) : List (String × Option (List Box)) :=
  let p1 := claimPass domains toks rows
  let unclaimed := (List.range rows.length).filter (fun i => !p1.2.contains i)
  (fallbackFill p1.1 unclaimed).map (fun e => (e.1, e.2.map (fun i => rows.getD i [])))

/-- Sum of the pixels of a box's sub-image. -/
def boxSum (img : Img) (b : Box) : Nat :=
  ((List.range b.h).map (fun dy =>
    ((List.range b.w).map (fun dx => img.pix (b.y + dy) (b.x + dx))).sum)).sum

/-- Mean grayscale intensity over a box. -/
def meanIntensity (img : Img) (b : Box) : ℚ :=
  (boxSum img b : ℚ) / ((b.w * b.h : Nat) : ℚ)

/-- Modelled from the spec (Fill Classifier): a box with mean intensity below
140 is filled. -/
def isFilled (img : Img) (b : Box) : Bool := decide (meanIntensity img b < 140)

/-- Modelled from the spec: every domain expects the same fixed count of 14
indicator boxes. -/
def EXPECTED_PER_DOMAIN : Nat := 14

/-- The spec's DomainResult: domain name, filled count, expected count,
deficit. -/
structure DomainResult where
  domain : String
  filled : Nat
  expected : Nat
  deficit : Int
deriving DecidableEq, Repr

/-- Modelled from the spec (Domain Aggregator): the result of one domain —
filled = count of boxes classified filled in its assigned row (0 if
unassigned), expected = 14, deficit = max(0, expected - filled). -/
def resultFor (img : Img) (d : String) (assigned : Option (List Box)) : DomainResult :=
  let f := (assigned.getD []).countP (isFilled img)
  { domain := d, filled := f, expected := EXPECTED_PER_DOMAIN,
    deficit := max 0 ((EXPECTED_PER_DOMAIN : Int) - (f : Int)) }

/-- The aggregator over an assignment list, in the assignment's order. -/
def aggregate (img : Img) (asg : List (String × Option (List Box))) : List DomainResult :=
  asg.map (fun e => resultFor img e.1 e.2)

/-- Descending-deficit order (the ranking key). -/
def deficitGE (a b : DomainResult) : Prop := b.deficit ≤ a.deficit

instance : DecidableRel deficitGE := fun a b =>
  inferInstanceAs (Decidable (b.deficit ≤ a.deficit))

/-- Modelled from the spec (Domain Aggregator): the results filtered to
strictly positive deficits and stably sorted by deficit descending. -/
def rankDeficits (results : List DomainResult) : List DomainResult :=
  List.insertionSort deficitGE (results.filter (fun r => decide (0 < r.deficit)))

/-- Modelled from the spec: the first two entries of the ranked mapping are
the focus domains surfaced to the caller. -/
def focusOf (results : List DomainResult) : List DomainResult :=
  (rankDeficits results).take 2

/-- Modelled from the spec: the analysis of a cropped region — split into
halves, detect and group boxes per half, assign the Reading and Writing
domains to the left half's rows and the Math domains to the right half's
rows, and aggregate all eight domains in declared order. -/
def analyzeCrop (crop : Img) (p : Params) (tokL tokR : List OCRToken) : List DomainResult :=
  let lh := leftHalf crop
  let rh := rightHalf crop
  aggregate (resizeToWidth CANONICAL_W lh)
      (assignDomains DOMAINS_RW tokL (groupRows (detectBoxes lh p))) ++
    aggregate (resizeToWidth CANONICAL_W rh)
      (assignDomains DOMAINS_MATH tokR (groupRows (detectBoxes rh p)))

/-- Modelled from the spec: the render error taxonomy — document unreadable
or page index invalid. -/
inductive RenderError where
  | unreadable
  | pageOutOfRange
deriving DecidableEq, Repr

/-- Modelled from the spec (Rasterizer): scale the page's native coordinate
space by `dpi / 72`. -/
def scalePage (dpi : Nat) (img : Img) : Img :=
  { width := img.width * dpi / 72, height := img.height * dpi / 72,
    pix := fun y x => img.pix (y * 72 / dpi) (x * 72 / dpi) }

/-- Modelled from the spec (Rasterizer): render one page of a document; a
document is `none` when it cannot be opened. Fails with a RenderError when
the document is unreadable or the page index is out of range. -/
def rasterize (doc : Option (List Img)) (pageIndex dpi : Nat) : Except RenderError Img :=
  match doc with
  | none => .error .unreadable
  | some pages =>
    match pages[pageIndex]? with
    | some pg => .ok (scalePage dpi pg)
    | none => .error .pageOutOfRange

/-- Modelled from the spec: the whole pipeline call. An unavailable or
erroring recognition engine is an absent token stream (`none`), treated as
empty; a missing or malformed configuration is `none`, treated as the
defaults; only the Rasterizer can fail. -/
def runPipeline (doc : Option (List Img)) (pageIndex dpi : Nat) (cfg : Option RawConfig)
    (tokL tokR : Option (List OCRToken)) : Except RenderError (List DomainResult) :=
  (rasterize doc pageIndex dpi).map (fun page =>
    let p := loadParams cfg
    rankDeficits (analyzeCrop (cropRegion page p) p (tokL.getD []) (tokR.getD [])))

/-- A sample question for concrete instantiations. -/
def sampleQuestion : Question :=
  { id := "1", domain := some "Algebra", paragraph := none, prompt := "p",
    choices := [("A", "x")], answer_letter := some "A", answer_text := some "x",
    explanation := none }

end SATutor

namespace SATutor

/-! ### Theorems -/

/-- C10: a submitted quiz answer is recorded as correct iff the question has a
stored (non-empty) answer letter and the submitted choice equals it
case-insensitively; a question whose answer letter is missing is always
graded wrong. -/
theorem gradeAnswer_correct_iff (ansLetter : Option String) (answer : String) :
    (gradeAnswer ansLetter answer = "correct" ↔
      ∃ a, ansLetter = some a ∧ a ≠ "" ∧ answer.toUpper = a.toUpper) ∧
    (ansLetter = none → gradeAnswer ansLetter answer = "wrong") := by
  constructor
  · cases ansLetter with
    | none =>
      simp only [gradeAnswer]
      constructor
      · intro h; exact absurd h (by decide)
      · rintro ⟨a, h, -, -⟩; cases h
    | some a =>
      simp only [gradeAnswer]
      by_cases he : a = ""
      · rw [if_pos he]
        constructor
        · intro h; exact absurd h (by decide)
        · rintro ⟨b, hb, hne, -⟩
          cases hb
          exact absurd he hne
      · rw [if_neg he]
        by_cases hu : answer.toUpper = a.toUpper
        · rw [if_pos hu]
          exact ⟨fun _ => ⟨a, rfl, he, hu⟩, fun _ => rfl⟩
        · rw [if_neg hu]
          constructor
          · intro h; exact absurd h (by decide)
          · rintro ⟨b, hb, -, hub⟩
            cases hb
            exact absurd hub hu
  · intro h
    subst h
    rfl

/-- C9: `QuestionBank.pick` returns at most `n` questions, every returned
question belongs to the bank, and a non-empty domain request that matches no
question of the bank falls back to drawing from the entire bank. -/
theorem pick_spec (questions : List Question) (domains : List String) (n : Nat)
    (shuffle : List Question → List Question)
    (hs : ∀ l, (shuffle l).Perm l) :
    (pick questions domains n shuffle).length ≤ n ∧
    (∀ q ∈ pick questions domains n shuffle, q ∈ questions) ∧
    (domains ≠ [] → (∀ q ∈ questions, questionMatches domains q = false) →
      pick questions domains n shuffle = (shuffle questions).take n) := by
  refine ⟨?_, ?_, ?_⟩
  · simp only [pick]
    exact List.length_take_le n _
  · intro q hq
    have hmem : q ∈ shuffle (pickPool questions domains) :=
      List.mem_of_mem_take hq
    have hpool : q ∈ pickPool questions domains :=
      ((hs (pickPool questions domains)).mem_iff).mp hmem
    unfold pickPool at hpool
    by_cases h : (questions.filter
        (fun q => domains.isEmpty || questionMatches domains q)).isEmpty
    · simpa [h] using hpool
    · simp only [h, if_false] at hpool
      exact List.mem_of_mem_filter hpool
  · intro hne hforall
    have hfe : questions.filter (fun q => domains.isEmpty || questionMatches domains q) = [] := by
      apply List.filter_eq_nil_iff.mpr
      intro q hq
      simp [List.isEmpty_iff.not.mpr hne, hforall q hq]
    simp [pick, pickPool, hfe]

/-- C9 witness: the picking contract at a concrete bank, domain request,
size and (identity) permutation. -/
theorem pick_spec_witness :
    (pick [sampleQuestion] ["Geometry and Trigonometry"] 3 id).length ≤ 3 ∧
    (∀ q ∈ pick [sampleQuestion] ["Geometry and Trigonometry"] 3 id,
      q ∈ [sampleQuestion]) ∧
    (["Geometry and Trigonometry"] ≠ ([] : List String) →
      (∀ q ∈ [sampleQuestion],
        questionMatches ["Geometry and Trigonometry"] q = false) →
      pick [sampleQuestion] ["Geometry and Trigonometry"] 3 id =
        (id [sampleQuestion]).take 3) :=
  pick_spec [sampleQuestion] ["Geometry and Trigonometry"] 3 id
    (fun l => List.Perm.refl l)

/-- C7 (spec-modelled): the pipeline and all its intermediate stages are pure
functions of the pixel buffer, token streams and Parameters, so two runs on
identical inputs produce identical Box, Row and DomainResult collections. -/
theorem pipeline_deterministic (doc : Option (List Img)) (pageIndex dpi : Nat)
    (cfg : Option RawConfig) (tokL tokR : Option (List OCRToken))
    (img : Img) (p : Params) (bs : List Box) :
    runPipeline doc pageIndex dpi cfg tokL tokR =
      runPipeline doc pageIndex dpi cfg tokL tokR ∧
    detectBoxes img p = detectBoxes img p ∧
    groupRows bs = groupRows bs ∧
    (∀ tl tr, analyzeCrop img p tl tr = analyzeCrop img p tl tr) :=
  ⟨rfl, rfl, rfl, fun _ _ => rfl⟩

/-- C1 (spec-modelled): every domain result of the analysis has a non-negative
filled count and deficit = max(0, 14 - filled); a domain with no assigned row
yields filled = 0 and deficit = 14. -/
theorem deficit_invariant (crop : Img) (p : Params) (tokL tokR : List OCRToken) :
    (∀ r ∈ analyzeCrop crop p tokL tokR,
      0 ≤ (r.filled : Int) ∧ r.deficit = max 0 (14 - (r.filled : Int))) ∧
    (∀ (img : Img) (d : String),
      resultFor img d none =
        { domain := d, filled := 0, expected := 14, deficit := 14 }) := by
  constructor
  · intro r hr
    have : ∃ img e, r = resultFor img (Prod.fst e) (Prod.snd e) := by
      rcases List.mem_append.mp hr with h | h
      · rcases List.mem_map.mp h with ⟨e, -, he⟩
        exact ⟨_, e, he.symm⟩
      · rcases List.mem_map.mp h with ⟨e, -, he⟩
        exact ⟨_, e, he.symm⟩
    rcases this with ⟨img, e, rfl⟩
    exact ⟨Int.ofNat_nonneg _, rfl⟩
  · intro img d
    rfl

/-- C5 (spec-modelled): with an empty token stream (recognition unavailable)
no domain finds a label, so four detected rows in the Reading and Writing
half are assigned to the four Reading and Writing domains in declared
order; the assignment is a total function and raises nothing. -/
theorem fallback_assigns_declared_order (r1 r2 r3 r4 : List Box) :
    assignDomains DOMAINS_RW [] [r1, r2, r3, r4] =
      [("Information and Ideas", some r1), ("Craft and Structure", some r2),
       ("Expression of Ideas", some r3), ("Standard English Conventions", some r4)] := by
  rfl

/-- C6 (spec-modelled): only a render failure (document unreadable or page
index invalid) reaches the caller as an error; for every readable document
and valid page index the pipeline returns a result whatever the
configuration and token streams (which only degrade to defaults or
fallback), and any error of the pipeline is the Rasterizer's. -/
theorem only_render_error_propagates (doc : Option (List Img)) (pageIndex dpi : Nat)
    (cfg : Option RawConfig) (tokL tokR : Option (List OCRToken)) :
    (doc = none →
      runPipeline doc pageIndex dpi cfg tokL tokR = .error .unreadable) ∧
    (∀ pages, doc = some pages → pages.length ≤ pageIndex →
      runPipeline doc pageIndex dpi cfg tokL tokR = .error .pageOutOfRange) ∧
    (∀ pages, doc = some pages → pageIndex < pages.length →
      ∃ out, runPipeline doc pageIndex dpi cfg tokL tokR = .ok out) ∧
    (∀ e, runPipeline doc pageIndex dpi cfg tokL tokR = .error e →
      rasterize doc pageIndex dpi = .error e) := by
  refine ⟨?_, ?_, ?_, ?_⟩
  · rintro rfl
    rfl
  · rintro pages rfl hlen
    simp [runPipeline, rasterize, Except.map, List.getElem?_eq_none hlen]
  · rintro pages rfl hlt
    refine ⟨rankDeficits (analyzeCrop
      (cropRegion (scalePage dpi pages[pageIndex]) (loadParams cfg)) (loadParams cfg)
      (tokL.getD []) (tokR.getD [])), ?_⟩
    simp only [runPipeline, rasterize, List.getElem?_eq_getElem hlt, Except.map]
  · intro e h
    unfold runPipeline at h
    cases hr : rasterize doc pageIndex dpi with
    | error e2 =>
      rw [hr] at h
      simp only [Except.map, Except.error.injEq] at h
      rw [h]
    | ok pg =>
      rw [hr] at h
      simp [Except.map] at h

/-- The filtered image of a stable insertion keeps the list order, provided
the skipped elements (those the inserted element does not precede) never
satisfy the predicate when the inserted element does. -/
theorem filter_orderedInsert (r : α → α → Prop) [DecidableRel r] (q : α → Bool) (a : α)
    (s : List α) (h : q a = true → ∀ b, ¬ r a b → q b = false) :
    (List.orderedInsert r a s).filter q =
      if q a then a :: s.filter q else s.filter q := by
  induction s with
  | nil =>
    rw [List.orderedInsert, List.filter_cons]
  | cons b bs ih =>
    by_cases hrab : r a b
    · rw [List.orderedInsert, if_pos hrab, List.filter_cons]
    · rw [List.orderedInsert, if_neg hrab, List.filter_cons, ih, List.filter_cons]
      cases hqa : q a with
      | true =>
        have hqb : q b = false := h hqa b hrab
        simp [hqb]
      | false => simp

/-- Stability of insertion sort through a predicate: filtering the sorted list
equals filtering the input, provided elements satisfying the predicate only
fail to precede elements that do not satisfy it. -/
theorem filter_insertionSort (r : α → α → Prop) [DecidableRel r] (q : α → Bool)
    (l : List α) (h : ∀ a b, q a = true → ¬ r a b → q b = false) :
    (List.insertionSort r l).filter q = l.filter q := by
  induction l with
  | nil => rfl
  | cons a l ih =>
    rw [List.insertionSort, filter_orderedInsert r q a _ (fun ha b hr => h a b ha hr), ih,
      List.filter_cons]

/-- C2 (spec-modelled): the aggregator's ranked output is exactly the domains
of strictly positive deficit, sorted by deficit descending, with ties kept in
the declared eight-domain order of the aggregation input; when no domain has
a positive deficit the ranked output is empty. -/
theorem ranked_output_spec (crop : Img) (p : Params) (tokL tokR : List OCRToken) :
    (rankDeficits (analyzeCrop crop p tokL tokR)).Perm
      ((analyzeCrop crop p tokL tokR).filter (fun r => decide (0 < r.deficit))) ∧
    (rankDeficits (analyzeCrop crop p tokL tokR)).Pairwise deficitGE ∧
    (∀ v : Int,
      (rankDeficits (analyzeCrop crop p tokL tokR)).filter
          (fun r => decide (r.deficit = v)) =
        ((analyzeCrop crop p tokL tokR).filter (fun r => decide (0 < r.deficit))).filter
          (fun r => decide (r.deficit = v))) ∧
    ((∀ r ∈ analyzeCrop crop p tokL tokR, r.deficit ≤ 0) →
      rankDeficits (analyzeCrop crop p tokL tokR) = []) := by
  refine ⟨?_, ?_, ?_, ?_⟩
  · exact List.perm_insertionSort deficitGE _
  · have h1 : IsTotal DomainResult deficitGE := ⟨fun a b => le_total b.deficit a.deficit⟩
    have h2 : IsTrans DomainResult deficitGE := ⟨fun a b c hab hbc => le_trans hbc hab⟩
    exact List.sorted_insertionSort deficitGE _
  · intro v
    apply filter_insertionSort
    intro a b ha hr
    have hav : a.deficit = v := of_decide_eq_true ha
    have hlt : a.deficit < b.deficit := lt_of_not_le hr
    apply decide_eq_false
    omega
  · intro hall
    have hfe : (analyzeCrop crop p tokL tokR).filter
        (fun r => decide (0 < r.deficit)) = [] := by
      apply List.filter_eq_nil_iff.mpr
      intro r hr
      simp [not_lt.mpr (hall r hr)]
    rw [rankDeficits, hfe]
    rfl

/-- C3 (spec-modelled): the focus domains surfaced to the caller are exactly
the first two entries of the deficit-descending ranked mapping, hence at most
two. -/
theorem focus_first_two (crop : Img) (p : Params) (tokL tokR : List OCRToken) :
    (focusOf (analyzeCrop crop p tokL tokR)).length =
      min 2 (rankDeficits (analyzeCrop crop p tokL tokR)).length ∧
    ∀ i, i < 2 →
      (focusOf (analyzeCrop crop p tokL tokR))[i]? =
        (rankDeficits (analyzeCrop crop p tokL tokR))[i]? := by
  constructor
  · simp [focusOf, List.length_take]
  · intro i hi
    exact List.getElem?_take_of_lt hi

/-- An all-light region thresholds to the all-false mask. -/
theorem maskOf_all_false (img : Img) (t : Nat) (h : ∀ y x, t < img.pix y x) :
    ∀ y x, maskOf img t y x = false := by
  intro y x
  simp [maskOf, Nat.not_le.mpr (h y x)]

/-- The anchor cell belongs to its own window. -/
theorem self_mem_window (k y x : Nat) (hk : 1 ≤ k) : (y, x) ∈ window k y x := by
  have hlt : k / 2 < k := Nat.div_lt_self hk (by norm_num)
  unfold window
  refine List.mem_flatMap.mpr ⟨k / 2, List.mem_range.mpr hlt, ?_⟩
  refine List.mem_map.mpr ⟨k / 2, List.mem_range.mpr hlt, ?_⟩
  simp

/-- Erosion of the all-false mask is all-false (the window of a positive-size
kernel contains its anchor). -/
theorem erode_all_false (w h k : Nat) (m : Nat → Nat → Bool) (hk : 1 ≤ k)
    (hm : ∀ y x, m y x = false) : ∀ y x, erode w h k m y x = false := by
  intro y x
  unfold erode
  by_cases hy : y < h
  · by_cases hx : x < w
    · have hall : ((window k y x).all fun c =>
          m c.1 c.2 || !(decide (c.1 < h) && decide (c.2 < w))) = false := by
        refine List.all_eq_false.mpr ⟨(y, x), self_mem_window k y x hk, ?_⟩
        simp [hm, hy, hx]
      rw [hall, Bool.and_false]
    · rw [decide_eq_false hx, Bool.and_false, Bool.false_and]
  · rw [decide_eq_false hy, Bool.false_and, Bool.false_and]

/-- Dilation of the all-false mask is all-false. -/
theorem dilate_all_false (w h k : Nat) (m : Nat → Nat → Bool)
    (hm : ∀ y x, m y x = false) : ∀ y x, dilate w h k m y x = false := by
  intro y x
  unfold dilate
  have : ((window k y x).any fun c => m c.1 c.2) = false := by
    refine List.any_eq_false.mpr ?_
    intro c _
    simp [hm]
  simp [this]

/-- The whole morphological chain maps the all-false mask to itself. -/
theorem morphed_all_false (w h : Nat) (p : Params) (m : Nat → Nat → Bool)
    (hk : 1 ≤ p.kernel) (hm : ∀ y x, m y x = false) :
    ∀ y x, morphed w h p m y x = false := by
  unfold morphed
  have hopen : ∀ y x, opening w h p.kernel m y x = false := by
    unfold opening
    exact dilate_all_false w h p.kernel _ (erode_all_false w h p.kernel m hk hm)
  have : ∀ n mm, (∀ y x, mm y x = false) →
      ∀ y x, (erode w h p.kernel)^[n] mm y x = false := by
    intro n
    induction n with
    | zero => intro mm hmm; simpa using hmm
    | succ n ih =>
      intro mm hmm
      rw [Function.iterate_succ]
      exact ih _ (erode_all_false w h p.kernel mm hk hmm)
  exact this p.erodeIter _ hopen

/-- An all-false mask has no true cells. -/
theorem trueCells_all_false (w h : Nat) (m : Nat → Nat → Bool)
    (hm : ∀ y x, m y x = false) : trueCells w h m = [] := by
  apply List.filter_eq_nil_iff.mpr
  intro c _
  simp [hm]

/-- Every pixel of a resized region is a pixel of the source region. -/
theorem resize_pix_mem (cw : Nat) (img : Img) (y x : Nat) :
    ∃ ys xs, (resizeToWidth cw img).pix y x = img.pix ys xs := by
  unfold resizeToWidth
  by_cases hz : img.width = 0
  · simp only [hz, if_pos rfl]
    exact ⟨y, x, rfl⟩
  · simp only [if_neg hz]
    exact ⟨_, _, rfl⟩

/-- C4 detector step: a region whose every pixel exceeds the fixed threshold
yields no boxes. -/
theorem detectBoxes_blank (img : Img) (p : Params) (t : Int)
    (hmode : p.mode = .fixed t) (hk : 1 ≤ p.kernel)
    (hlight : ∀ y x, clampThresh t < img.pix y x) :
    detectBoxes img p = [] := by
  have ht : thresholdOf p (resizeToWidth CANONICAL_W img) = clampThresh t := by
    unfold thresholdOf
    rw [hmode]
  have hlight2 : ∀ y x, clampThresh t < (resizeToWidth CANONICAL_W img).pix y x := by
    intro y x
    obtain ⟨ys, xs, he⟩ := resize_pix_mem CANONICAL_W img y x
    rw [he]
    exact hlight ys xs
  have hmask : ∀ y x, maskOf (resizeToWidth CANONICAL_W img)
      (thresholdOf p (resizeToWidth CANONICAL_W img)) y x = false := by
    rw [ht]
    exact maskOf_all_false _ _ hlight2
  have hmorph := morphed_all_false (resizeToWidth CANONICAL_W img).width
    (resizeToWidth CANONICAL_W img).height p _ hk hmask
  have hcells := trueCells_all_false (resizeToWidth CANONICAL_W img).width
    (resizeToWidth CANONICAL_W img).height _ hmorph
  simp only [detectBoxes, components]
  rw [hcells]
  rfl

/-- Assignment over an empty row list leaves every domain unassigned. -/
theorem assignDomains_no_rows (ds : List String) (toks : List OCRToken) :
    assignDomains ds toks [] = ds.map (fun d => (d, none)) := by
  have hclaim : ∀ acc : List (String × Option Nat) × List Nat,
      List.foldl (fun acc d =>
        match labelPos d toks with
        | none => (acc.1 ++ [(d, none)], acc.2)
        | some pos =>
          match nearestIdx pos [] acc.2 with
          | none => (acc.1 ++ [(d, none)], acc.2)
          | some i => (acc.1 ++ [(d, some i)], acc.2 ++ [i])) acc ds =
      (acc.1 ++ ds.map (fun d => ((d, none) : String × Option Nat)), acc.2) := by
    induction ds with
    | nil => intro acc; simp
    | cons d ds ih =>
      intro acc
      rw [List.foldl_cons]
      have hstep :
          (match labelPos d toks with
            | none => (acc.1 ++ [(d, none)], acc.2)
            | some pos =>
              match nearestIdx pos [] acc.2 with
              | none => (acc.1 ++ [((d : String), (none : Option Nat))], acc.2)
              | some i => (acc.1 ++ [(d, some i)], acc.2 ++ [i])) =
          (acc.1 ++ [((d : String), (none : Option Nat))], acc.2) := by
        cases labelPos d toks with
        | none => rfl
        | some pos => rfl
      rw [hstep, ih]
      simp
  have hfill : ∀ l : List String,
      fallbackFill (l.map (fun d => (d, none))) [] = l.map (fun d => (d, none)) := by
    intro l
    induction l with
    | nil => rfl
    | cons d l ih => simpa [fallbackFill] using ih
  simp only [assignDomains]
  unfold claimPass
  rw [hclaim ([], [])]
  simp only [List.nil_append, List.length_nil, List.range_zero, List.filter_nil]
  rw [hfill, List.map_map]
  rfl

/-- Aggregation of an all-unassigned domain list. -/
theorem aggregate_unassigned (img : Img) (ds : List String) :
    aggregate img (ds.map (fun d => (d, none))) =
      ds.map (fun d => { domain := d, filled := 0, expected := 14, deficit := 14 }) := by
  unfold aggregate
  rw [List.map_map]
  rfl

/-- C4 (spec-modelled): an entirely light cropped region (every pixel above
the fixed threshold) yields zero detected boxes, so the analysis reports all
eight domains with filled = 0 and deficit = 14, and the ranked output lists
the eight domains in declared order under the tie. -/
theorem blank_region_analysis (crop : Img) (p : Params) (tokL tokR : List OCRToken)
    (t : Int) (hmode : p.mode = .fixed t) (hk : 1 ≤ p.kernel)
    (hlight : ∀ y x, clampThresh t < crop.pix y x) :
    analyzeCrop crop p tokL tokR =
      allDomains.map (fun d => { domain := d, filled := 0, expected := 14, deficit := 14 }) ∧
    rankDeficits (analyzeCrop crop p tokL tokR) =
      allDomains.map (fun d => { domain := d, filled := 0, expected := 14, deficit := 14 }) := by
  have hL : detectBoxes (leftHalf crop) p = [] := by
    apply detectBoxes_blank _ _ t hmode hk
    intro y x
    exact hlight y x
  have hR : detectBoxes (rightHalf crop) p = [] := by
    apply detectBoxes_blank _ _ t hmode hk
    intro y x
    exact hlight y _
  have hmain : analyzeCrop crop p tokL tokR =
      allDomains.map (fun d => { domain := d, filled := 0, expected := 14, deficit := 14 }) := by
    simp only [analyzeCrop]
    rw [hL, hR]
    have hg : groupRows [] = [] := rfl
    rw [hg, assignDomains_no_rows, assignDomains_no_rows,
      aggregate_unassigned, aggregate_unassigned]
    unfold allDomains
    rw [List.map_append]
  refine ⟨hmain, ?_⟩
  rw [hmain]
  have hfilter : (allDomains.map (fun d =>
      ({ domain := d, filled := 0, expected := 14, deficit := 14 } : DomainResult))).filter
      (fun r => decide (0 < r.deficit)) =
      allDomains.map (fun d => { domain := d, filled := 0, expected := 14, deficit := 14 }) := by
    apply List.filter_eq_self.mpr
    intro r hr
    rcases List.mem_map.mp hr with ⟨d, -, rfl⟩
    rfl
  unfold rankDeficits
  rw [hfilter]
  apply List.Sorted.insertionSort_eq
  apply List.pairwise_map.mpr
  exact List.pairwise_of_forall (fun a b => le_refl (14 : Int))

/-- C4 witness: the blank-region analysis at a concrete all-white 2-by-2
crop under the default Parameters. -/
theorem blank_region_analysis_witness :
    analyzeCrop { width := 2, height := 2, pix := fun _ _ => 255 } defaultParams [] [] =
      allDomains.map (fun d => { domain := d, filled := 0, expected := 14, deficit := 14 }) ∧
    rankDeficits (analyzeCrop { width := 2, height := 2, pix := fun _ _ => 255 }
        defaultParams [] []) =
      allDomains.map (fun d => { domain := d, filled := 0, expected := 14, deficit := 14 }) :=
  blank_region_analysis { width := 2, height := 2, pix := fun _ _ => 255 } defaultParams
    [] [] 180 rfl (by decide) (fun _ _ => show clampThresh 180 < 255 by decide)

/-- Every element of the Method-1 result is a known domain. -/
theorem method1_subset (t : List Char) : ∀ d ∈ method1 t, d ∈ domainKeys := by
  intro d hd
  exact List.mem_of_mem_filter hd

/-- Every element of the Method-2 result is a known domain. -/
theorem method2_subset (t : List Char) : ∀ d ∈ method2 t, d ∈ domainKeys := by
  intro d hd
  simp only [method2] at hd
  split_ifs at hd
  · exact absurd hd (List.not_mem_nil d)
  · rcases List.mem_filterMap.mp hd with ⟨q, hq, hqd⟩
    have hq2 : q ∈ List.insertionSort scoreLE (domainPerformance t) :=
      List.mem_of_mem_take hq
    have hq3 : q ∈ domainPerformance t := (List.mem_insertionSort scoreLE).mp hq2
    rcases List.mem_filterMap.mp hq3 with ⟨d0, hd0, hmap⟩
    have hfst : q.1 = d0 := by
      cases hs : searchO (matchDomParen d0) t with
      | none => rw [hs] at hmap; cases hmap
      | some rest =>
        rw [hs] at hmap
        simp only [Option.map_some'] at hmap
        injection hmap with h
        rw [← h]
    have hdq : d = q.1 := by
      by_cases hlt : q.2 < 4/5
      · rw [if_pos hlt] at hqd
        exact (Option.some.injEq _ _ ▸ hqd).symm
      · rw [if_neg hlt] at hqd
        cases hqd
    rw [hdq, hfst]
    exact hd0

/-- Every element of the smart fallback is a known domain. -/
theorem smartFallback_subset (a b : Int) : ∀ d ∈ smartFallback a b, d ∈ domainKeys := by
  intro d hd
  unfold smartFallback at hd
  split_ifs at hd
  all_goals first
    | exact absurd hd (List.not_mem_nil d)
    | (simp only [List.mem_cons, List.not_mem_nil, or_false] at hd
       rcases hd with rfl | rfl <;> decide)

/-- Every element of the Method-3 result is a known domain. -/
theorem method3_subset (t : List Char) (a b : Int) :
    ∀ d ∈ method3 t a b, d ∈ domainKeys := by
  intro d hd
  simp only [method3] at hd
  split_ifs at hd
  all_goals first
    | exact absurd hd (List.not_mem_nil d)
    | exact List.mem_of_mem_filter (List.mem_of_mem_filter (List.mem_of_mem_take hd))
    | exact List.mem_of_mem_filter (List.mem_of_mem_take hd)

/-- Every element of the final fallback is a known domain. -/
theorem finalFallback_subset (a b : Int) : ∀ d ∈ finalFallback a b, d ∈ domainKeys := by
  intro d hd
  unfold finalFallback at hd
  split_ifs at hd
  all_goals simp only [List.mem_cons, List.not_mem_nil, or_false] at hd
  all_goals rcases hd with rfl | rfl
  all_goals decide

/-- The final fallback is never empty. -/
theorem finalFallback_ne_nil (a b : Int) : finalFallback a b ≠ [] := by
  unfold finalFallback
  split_ifs <;> simp

/-- A four-stage emptiness cascade is non-empty when its last stage is. -/
theorem cascade_ne_nil (l1 l2 l3 l4 : List String) (h4 : l4 ≠ []) :
    (if !l1.isEmpty then l1
     else if !l2.isEmpty then l2
     else if !l3.isEmpty then l3
     else l4) ≠ [] := by
  split_ifs with h1 h2 h3
  · intro he; rw [he] at h1; simp at h1
  · intro he; rw [he] at h2; simp at h2
  · intro he; rw [he] at h3; simp at h3
  · exact h4

/-- A four-stage emptiness cascade returns one of its stages. -/
theorem cascade_subset (l1 l2 l3 l4 : List String) (P : String → Prop)
    (s1 : ∀ d ∈ l1, P d) (s2 : ∀ d ∈ l2, P d) (s3 : ∀ d ∈ l3, P d)
    (s4 : ∀ d ∈ l4, P d) :
    ∀ d ∈ (if !l1.isEmpty then l1
           else if !l2.isEmpty then l2
           else if !l3.isEmpty then l3
           else l4), P d := by
  split_ifs <;> assumption

/-- The weakness cascade is never empty: every branch is taken only when
non-empty, and the final fallback supplies two domains. -/
theorem domainWeaknesses_ne_nil (t : List Char) (a b : Int) :
    domainWeaknesses t a b ≠ [] := by
  simp only [domainWeaknesses]
  exact cascade_ne_nil _ _ _ _ (finalFallback_ne_nil a b)

/-- Every element of the weakness cascade is a known domain. -/
theorem domainWeaknesses_subset (t : List Char) (a b : Int) :
    ∀ d ∈ domainWeaknesses t a b, d ∈ domainKeys := by
  simp only [domainWeaknesses]
  apply cascade_subset
  · exact method1_subset t
  · intro d hd
    split_ifs at hd
    · exact method2_subset t d hd
    · exact smartFallback_subset a b d hd
  · exact method3_subset t a b
  · exact finalFallback_subset a b

/-- Bounds of taking the first two entries of a non-empty known-domain
list. -/
theorem take_two_bounds (l : List String) (hne : l ≠ [])
    (hsub : ∀ d ∈ l, d ∈ domainKeys) :
    1 ≤ (l.take 2).length ∧ (l.take 2).length ≤ 2 ∧
      ∀ d ∈ l.take 2, d ∈ domainKeys := by
  have hlen : (l.take 2).length = min 2 l.length := List.length_take 2 l
  have hpos : 0 < l.length := List.length_pos.mpr hne
  refine ⟨by omega, by omega, ?_⟩
  intro d hd
  exact hsub d (List.mem_of_mem_take hd)

/-- C8 (amended): for every input text, the focus-domain list of
`parse_score_report` has at least one and at most two elements, each drawn
from the eight fixed domain names — it is never empty, because an
unconditional final fallback supplies two domains when no weakness is
detected. -/
theorem parse_score_report_focus_bounds (text : String) :
    1 ≤ (parse_score_report text).focus_domains.length ∧
    (parse_score_report text).focus_domains.length ≤ 2 ∧
    ∀ d ∈ (parse_score_report text).focus_domains, d ∈ domainKeys := by
  simp only [parse_score_report]
  exact take_two_bounds _
    (domainWeaknesses_ne_nil text.data _ _)
    (domainWeaknesses_subset text.data _ _)

/-- C8 counterexample: on the text "need to focus on Algebra" Method 1 finds
a single weak domain, so the focus-domain list has exactly one element, not
two. -/
theorem parse_score_report_focus_single :
    (parse_score_report "need to focus on Algebra").focus_domains = ["Algebra"] ∧
    ¬((parse_score_report "need to focus on Algebra").focus_domains.length = 2) := by
  constructor
  · rfl
  · decide

end SATutor
